import Mathlib

/-!
Verification of the `release` command (release.go): a shallow embedding of
the program over an explicit oracle for the process environment, the
filesystem and the two external tools (`git`, `gh`), together with proofs
of the claims of the specification about it.

Go strings are modelled as `List Char`; external collaborators
(`strings`, `unicode`, `path/filepath`, `golang.org/x/mod/semver`, and the
subprocess/filesystem boundary) are embedded from their sources or
documented contracts.
-/

/-! ## Strings and characters (Go `strings` / `unicode` packages) -/

namespace strings

/-- Embedding of Go `strings.Split(s, sep)` for a one-character separator
(the program only ever splits on the one-character separator a slash).
`Split "" sep = [""]` as in Go. -/
def Split (sep : Char) : List Char → List (List Char)
  | [] => [[]]
  | c :: cs =>
    if c = sep then [] :: Split sep cs
    else
      match Split sep cs with
      | [] => [[c]]
      | p :: ps => (c :: p) :: ps

end strings

namespace unicode

/-- Embedding of Go `unicode.IsSpace`: the White_Space code points
U+0009..U+000D, U+0020, U+0085, U+00A0, U+1680, U+2000..U+200A, U+2028,
U+2029, U+202F, U+205F and U+3000. -/
def IsSpace (c : Char) : Bool :=
  (9 ≤ c.toNat && c.toNat ≤ 13) || c.toNat = 32 || c.toNat = 0x85 ||
  c.toNat = 0xA0 || c.toNat = 0x1680 ||
  (0x2000 ≤ c.toNat && c.toNat ≤ 0x200A) || c.toNat = 0x2028 ||
  c.toNat = 0x2029 || c.toNat = 0x202F || c.toNat = 0x205F ||
  c.toNat = 0x3000

end unicode

namespace strings

/-- Embedding of Go `strings.TrimSpace`: drop the leading and trailing
characters satisfying `unicode.IsSpace`. -/
def TrimSpace (s : List Char) : List Char :=
  ((s.dropWhile unicode.IsSpace).reverse.dropWhile unicode.IsSpace).reverse

end strings

/-! ## Semantic versions (`golang.org/x/mod/semver`)

The program delegates version validation and the derivation of the
major / major-minor aliases to `golang.org/x/mod/semver`; the definitions
below embed `parse`, `IsValid`, `Major` and `MajorMinor` of that library. -/

namespace semver

/-- A digit byte, `'0' <= c && c <= '9'` in the Go source. -/
def isDigit (c : Char) : Bool := '0' ≤ c && c ≤ '9'

/-- Identifier characters allowed in pre-release and build suffixes. -/
def isIdentChar (c : Char) : Bool :=
  ('A' ≤ c && c ≤ 'Z') || ('a' ≤ c && c ≤ 'z') || isDigit c || c = '-'

/-- A numeric identifier with a leading zero (rejected inside
pre-release suffixes). -/
def isBadNum (v : List Char) : Bool :=
  v.all isDigit && decide (1 < v.length) && v.head? = some '0'

/-- The longest digit run at the head of the input, with the rest. -/
def takeDigits : List Char → List Char × List Char
  | [] => ([], [])
  | c :: cs =>
    if isDigit c then (c :: (takeDigits cs).1, (takeDigits cs).2)
    else ([], c :: cs)

/-- Embedding of `semver.parseInt`: a non-empty digit run without a
leading zero (unless it is exactly the one digit zero), plus the rest. -/
def parseInt (v : List Char) : Option (List Char × List Char) :=
  match v with
  | [] => none
  | c :: cs =>
    if isDigit c then
      if c = '0' ∧ (takeDigits cs).1 ≠ [] then none
      else some (c :: (takeDigits cs).1, (takeDigits cs).2)
    else none

/-- Scanner for the dot-separated identifiers of a pre-release suffix;
`seg` is the identifier currently being read. Stops at a plus sign. -/
def preScan (seg : List Char) : List Char → Option (List Char × List Char)
  | [] => if seg = [] ∨ isBadNum seg then none else some ([], [])
  | c :: cs =>
    if c = '+' then
      if seg = [] ∨ isBadNum seg then none else some ([], c :: cs)
    else if c = '.' then
      if seg = [] ∨ isBadNum seg then none
      else
        match preScan [] cs with
        | none => none
        | some (t, r) => some (c :: t, r)
    else if isIdentChar c then
      match preScan (seg ++ [c]) cs with
      | none => none
      | some (t, r) => some (c :: t, r)
    else none

/-- Embedding of `semver.parsePrerelease`. -/
def parsePrerelease (v : List Char) : Option (List Char × List Char) :=
  match v with
  | '-' :: cs =>
    match preScan [] cs with
    | none => none
    | some (t, r) => some ('-' :: t, r)
  | _ => none

/-- Scanner for the dot-separated identifiers of a build suffix
(leading zeroes allowed, consumes the whole rest of the input). -/
def buildScan (seg : List Char) : List Char → Option (List Char)
  | [] => if seg = [] then none else some []
  | c :: cs =>
    if c = '.' then
      if seg = [] then none
      else
        match buildScan [] cs with
        | none => none
        | some t => some (c :: t)
    else if isIdentChar c then
      match buildScan (seg ++ [c]) cs with
      | none => none
      | some t => some (c :: t)
    else none

/-- Embedding of `semver.parseBuild`. -/
def parseBuild (v : List Char) : Option (List Char × List Char) :=
  match v with
  | '+' :: cs =>
    match buildScan [] cs with
    | none => none
    | some t => some ('+' :: t, [])
  | _ => none

/-- The fields of a parsed semantic version, as in the Go library. -/
structure Parsed where
  major : List Char
  minor : List Char
  patch : List Char
  short : List Char
  prerelease : List Char
  build : List Char
deriving DecidableEq

/-- The optional pre-release step of `semver.parse`: only taken when the
rest starts with a dash. -/
def parseOptPre (v : List Char) : Option (List Char × List Char) :=
  match v with
  | '-' :: _ => parsePrerelease v
  | _ => some ([], v)

/-- The optional build step of `semver.parse`: only taken when the rest
starts with a plus sign. -/
def parseOptBuild (v : List Char) : Option (List Char × List Char) :=
  match v with
  | '+' :: _ => parseBuild v
  | _ => some ([], v)

/-- Embedding of `semver.parse`: a leading `v`, then either a bare major,
a major and minor, or major, minor and patch with optional pre-release
and build suffixes. -/
def parse (v : List Char) : Option Parsed :=
  match v with
  | [] => none
  | c :: rest =>
    if c = 'v' then
      match parseInt rest with
      | none => none
      | some (mjr, v1) =>
        match v1 with
        | [] => some ⟨mjr, ['0'], ['0'], ['.', '0', '.', '0'], [], []⟩
        | c1 :: v2 =>
          if c1 = '.' then
            match parseInt v2 with
            | none => none
            | some (mnr, v3) =>
              match v3 with
              | [] => some ⟨mjr, mnr, ['0'], ['.', '0'], [], []⟩
              | c2 :: v4 =>
                if c2 = '.' then
                  match parseInt v4 with
                  | none => none
                  | some (pat, v5) =>
                    match parseOptPre v5 with
                    | none => none
                    | some (pre, v6) =>
                      match parseOptBuild v6 with
                      | none => none
                      | some (bld, v7) =>
                        if v7 = [] then some ⟨mjr, mnr, pat, [], pre, bld⟩
                        else none
                else none
          else none
    else none

/-- Embedding of `semver.IsValid`. -/
def IsValid (v : List Char) : Bool := (parse v).isSome

/-- Embedding of `semver.Major`: the prefix of `v` covering the leading
`v` and the major number, or empty when `v` is invalid. -/
def Major (v : List Char) : List Char :=
  match parse v with
  | none => []
  | some p => v.take (1 + p.major.length)

/-- Embedding of `semver.MajorMinor`: the prefix of `v` covering the
major and minor numbers when it is literally present, otherwise the
major part with the canonical minor number appended. -/
def MajorMinor (v : List Char) : List Char :=
  match parse v with
  | none => []
  | some p =>
    if 1 + p.major.length + 1 + p.minor.length ≤ v.length ∧
        v[1 + p.major.length]? = some '.' ∧
        (v.drop (1 + p.major.length + 1)).take p.minor.length = p.minor then
      v.take (1 + p.major.length + 1 + p.minor.length)
    else v.take (1 + p.major.length) ++ ('.' :: p.minor)

end semver

/-! Sanity checks of the semver embedding against the behavior of
`golang.org/x/mod/semver` on known examples. -/

example : semver.IsValid ['v', '1', '.', '2', '.', '3'] = true := by decide
example : semver.IsValid ['1', '.', '2', '.', '3'] = false := by decide
example : semver.IsValid ['v', '1', '.', '0', '2'] = false := by decide
example : semver.IsValid
    ['v', '1', '.', '2', '.', '3', '-', 'r', 'c', '1'] = true := by decide
example : semver.IsValid ['v', '1'] = true := by decide
example : semver.IsValid ['v', '1', '.', '2', '.'] = false := by decide
example : semver.Major ['v', '1', '.', '2', '.', '3'] = ['v', '1'] := by decide
example : semver.Major ['v', '1', '0', '.', '2', '.', '3'] =
    ['v', '1', '0'] := by decide
example : semver.MajorMinor ['v', '1', '.', '2', '.', '3'] =
    ['v', '1', '.', '2'] := by decide
example : semver.MajorMinor ['v', '1'] = ['v', '1', '.', '0'] := by decide
example : semver.Major
    ['v', '1', '.', '2', '.', '3', '-', 'r', 'c', '1'] = ['v', '1'] := by decide
example : semver.MajorMinor
    ['v', '1', '.', '2', '.', '3', '-', 'r', 'c', '1'] =
    ['v', '1', '.', '2'] := by decide
example : strings.TrimSpace [' ', '\t', 'a', 'b', '\n'] = ['a', 'b'] := by decide
example : strings.Split '/' ['a', '/', 'b'] = [['a'], ['b']] := by decide
example : strings.Split '/' ['a', '/', 'b', '/', 'c'] =
    [['a'], ['b'], ['c']] := by decide
example : strings.Split '/' ['/', 'b'] = [[], ['b']] := by decide
example : strings.Split '/' ['a'] = [['a']] := by decide

/-! ## Paths (Go `path/filepath` package)

`filepath.Join` joins its arguments with a slash and normalizes the
result with `filepath.Clean`; both are embedded below (Unix separator). -/

namespace filepath

/-- The leading path segment (run of non-slash characters) and the rest. -/
def dropSeg : List Char → List Char × List Char
  | [] => ([], [])
  | c :: cs =>
    if c = '/' then ([], c :: cs)
    else (c :: (dropSeg cs).1, (dropSeg cs).2)

theorem length_dropSeg (l : List Char) : (dropSeg l).2.length ≤ l.length := by
  induction l with
  | nil => simp [dropSeg]
  | cons c cs ih =>
    by_cases h : c = '/' <;> simp [dropSeg, h] <;> omega

/-- The backtracking step of `filepath.Clean` on a dot-dot element: walk
the output index down past the last emitted segment, but never below the
guard index `dotdot`. -/
def backIdx (out : List Char) (dotdot w : Nat) : Nat :=
  if h : dotdot < w ∧ out[w]? ≠ some '/' then backIdx out dotdot (w - 1)
  else w
termination_by w
decreasing_by omega

/-- The effect of a dot-dot path element on the output buffer and the
dot-dot guard index, as in `filepath.Clean`. -/
def dotdotStep (rooted : Bool) (out : List Char) (dotdot : Nat) :
    List Char × Nat :=
  if dotdot < out.length then
    (out.take (backIdx out dotdot (out.length - 1)), dotdot)
  else if rooted = false then
    ((if 0 < out.length then out ++ ['/', '.', '.'] else ['.', '.']),
     if 0 < out.length then out.length + 3 else 2)
  else (out, dotdot)

/-- The main loop of `filepath.Clean`: skip separators and dot elements,
backtrack on dot-dot elements, and copy ordinary segments preceded by a
separator when the output is non-empty. -/
def cleanLoop (rooted : Bool) : List Char → List Char → Nat → List Char
  | [], out, _ => out
  | c :: cs, out, dotdot =>
    if h1 : c = '/' then cleanLoop rooted cs out dotdot
    else if h2 : c = '.' ∧ (cs = [] ∨ cs.head? = some '/') then
      cleanLoop rooted cs out dotdot
    else if h3 : c = '.' ∧ cs.head? = some '.' ∧
        (cs.tail = [] ∨ cs.tail.head? = some '/') then
      cleanLoop rooted cs.tail (dotdotStep rooted out dotdot).1
        (dotdotStep rooted out dotdot).2
    else
      cleanLoop rooted (dropSeg (c :: cs)).2
        ((if (rooted = true ∧ out.length ≠ 1) ∨
            (rooted = false ∧ out.length ≠ 0)
          then out ++ ['/'] else out) ++ (dropSeg (c :: cs)).1)
        dotdot
termination_by l _ _ => l.length
decreasing_by
  · simp
  · simp
  · have := List.length_tail cs
    simp
    omega
  · have := length_dropSeg cs
    simp [dropSeg, h1]
    omega

/-- Embedding of `filepath.Clean` (Unix separators). -/
def Clean (path : List Char) : List Char :=
  match path with
  | [] => ['.']
  | c :: cs =>
    if c = '/' then
      let out := cleanLoop true cs ['/'] 1
      if out = [] then ['.'] else out
    else
      let out := cleanLoop false (c :: cs) [] 0
      if out = [] then ['.'] else out

/-- Embedding of `filepath.Join` restricted to two elements, the only
arity the program uses: empty elements are skipped and the slash-joined
rest is cleaned. -/
def Join (dir name : List Char) : List Char :=
  if dir = [] then
    if name = [] then [] else Clean name
  else Clean (dir ++ ('/' :: name))

end filepath

/-! Sanity checks of the path embedding against Go `filepath` behavior. -/

example : filepath.Join ['w'] ['a'] = ['w', '/', 'a'] := by
  simp [filepath.Join, filepath.Clean, filepath.cleanLoop, filepath.dropSeg]
example : filepath.Clean ['a', '/', '/', 'b'] = ['a', '/', 'b'] := by
  simp [filepath.Clean, filepath.cleanLoop, filepath.dropSeg]
example : filepath.Clean ['a', '/', '.', '/', 'b'] = ['a', '/', 'b'] := by
  simp [filepath.Clean, filepath.cleanLoop, filepath.dropSeg]
example : filepath.Clean ['a', '/', 'b', '/', '.', '.'] = ['a'] := by
  simp [filepath.Clean, filepath.cleanLoop, filepath.dropSeg,
    filepath.dotdotStep, filepath.backIdx]
example : filepath.Clean ['.', '.'] = ['.', '.'] := by
  simp [filepath.Clean, filepath.cleanLoop, filepath.dotdotStep]
example : filepath.Clean ['/', '.', '.'] = ['/'] := by
  simp [filepath.Clean, filepath.cleanLoop, filepath.dotdotStep]
example : filepath.Clean ['a', '/', '.', '.'] = ['.'] := by
  simp [filepath.Clean, filepath.cleanLoop, filepath.dropSeg,
    filepath.dotdotStep, filepath.backIdx]
example : filepath.Join ['.'] ['x'] = ['x'] := by
  simp [filepath.Join, filepath.Clean, filepath.cleanLoop, filepath.dropSeg]

/-! ## The program boundary

The program observes the outside world through `os.ReadDir` and through
blocking subprocess calls (`git`, `gh`).  A `World` fixes the outcome of
every such interaction: `readDir` yields the directory entries (sorted by
the contract of the primitive, not assumed here) or fails, and `exec`
yields the raw standard output of a subprocess or fails.  A run is then a
pure function of the world and the `GITHUB_REF_NAME` value, producing the
chronological trace of boundary events and the process outcome. -/

/-- A directory entry as returned by `os.ReadDir` (`fs.DirEntry`): its
base name and whether it is a directory. -/
structure DirEntry where
  name : List Char
  isDir : Bool
deriving DecidableEq

/-- The oracle for the filesystem and for subprocess execution. -/
structure World where
  readDir : List Char → Option (List DirEntry)
  exec : List Char → List (List Char) → Option (List Char)

/-- Observable boundary events of a run, in chronological order: a
subprocess invocation (command name and arguments), the directory
listing, and the two warnings the program can log. -/
inductive Event where
  | execCmd (name : List Char) (args : List (List Char))
  | readDirCall (dir : List Char)
  | warnSkipDir (name : List Char)
  | warnDeleteFailed (tag : List Char)
deriving DecidableEq

/-- The process outcome: exit code zero, or the `log.Fatalf` site that
terminated the run with a non-zero exit code. -/
inductive Outcome where
  | ok
  | fatalMissingEnv
  | fatalInvalidTag (refName : List Char)
  | fatalInvalidVersion (version : List Char)
  | fatalListFiles (dir : List Char)
  | fatalGetHash
  | fatalCreateRelease (tag : List Char)
deriving DecidableEq

/-- The command name `git`. -/
def gitName : List Char := ['g', 'i', 't']

/-- The command name `gh`. -/
def ghName : List Char := ['g', 'h']

/-- The argument word `show-ref`. -/
def sShowRef : List Char := ['s', 'h', 'o', 'w', '-', 'r', 'e', 'f']

/-- The argument word `--hash`. -/
def sHash : List Char := ['-', '-', 'h', 'a', 's', 'h']

/-- The argument word `release`. -/
def sRelease : List Char := ['r', 'e', 'l', 'e', 'a', 's', 'e']

/-- The argument word `delete`. -/
def sDelete : List Char := ['d', 'e', 'l', 'e', 't', 'e']

/-- The argument word `create`. -/
def sCreate : List Char := ['c', 'r', 'e', 'a', 't', 'e']

/-- The argument word `--cleanup-tag`. -/
def sCleanupTag : List Char :=
  ['-', '-', 'c', 'l', 'e', 'a', 'n', 'u', 'p', '-', 't', 'a', 'g']

/-- The argument word `--yes`. -/
def sYes : List Char := ['-', '-', 'y', 'e', 's']

/-- The argument word `--target`. -/
def sTarget : List Char := ['-', '-', 't', 'a', 'r', 'g', 'e', 't']

/-- The argument list of the hash-resolution call
`git show-ref --hash <ref>`. -/
def gitArgs (ref : List Char) : List (List Char) :=
  [sShowRef, sHash, ref]

/-- The argument list of the release-deletion call
`gh release delete --cleanup-tag --yes <tag>`. -/
def delArgs (tag : List Char) : List (List Char) :=
  [sRelease, sDelete, sCleanupTag, sYes, tag]

/-- The argument list of the release-creation call
`gh release create --target <target> <tag> <files...>`. -/
def createArgs (target tag : List Char) (files : List (List Char)) :
    List (List Char) :=
  [sRelease, sCreate, sTarget, target, tag] ++ files

namespace release

/-- Embedding of `execCmd` in release.go: run the command, fail when it
fails, and return its standard output trimmed of surrounding
whitespace. -/
def execCmd (w : World) (name : List Char) (args : List (List Char)) :
    List Event × Option (List Char) :=
  ([Event.execCmd name args], (w.exec name args).map strings.TrimSpace)

/-- Embedding of `gitHash` in release.go: resolve the reference to a
commit hash via `git show-ref --hash`. -/
def gitHash (w : World) (ref : List Char) : List Event × Option (List Char) :=
  execCmd w gitName (gitArgs ref)

/-- Embedding of the loop body of `readDir` in release.go: skip
directory entries with a warning, and emit each file joined with the
directory. -/
def readDirLoop (dir : List Char) : List DirEntry → List Event × List (List Char)
  | [] => ([], [])
  | e :: es =>
    if e.isDir then
      (Event.warnSkipDir e.name :: (readDirLoop dir es).1, (readDirLoop dir es).2)
    else
      ((readDirLoop dir es).1, filepath.Join dir e.name :: (readDirLoop dir es).2)

/-- Embedding of `readDir` in release.go: list the directory with
`os.ReadDir`, failing when the listing fails, then collect the
non-directory entries. -/
def readDir (w : World) (dir : List Char) :
    List Event × Option (List (List Char)) :=
  match w.readDir dir with
  | none => ([Event.readDirCall dir], none)
  | some entries =>
    (Event.readDirCall dir :: (readDirLoop dir entries).1,
     some (readDirLoop dir entries).2)

/-- Embedding of `ghRelease` in release.go: when `del` is set, attempt
to delete the release at `tag`, logging a warning and continuing when
the deletion fails; then create the release at `tag` targeting `target`
with `files` attached, failing exactly when creation fails. -/
def ghRelease (w : World) (tag target : List Char) (del : Bool)
    (files : List (List Char)) : List Event × Bool :=
  let delEvs : List Event :=
    if del then
      (execCmd w ghName (delArgs tag)).1 ++
        (match (execCmd w ghName (delArgs tag)).2 with
         | none => [Event.warnDeleteFailed tag]
         | some _ => [])
    else []
  (delEvs ++ (execCmd w ghName (createArgs target tag files)).1,
   (execCmd w ghName (createArgs target tag files)).2.isSome)

/-- Embedding of the release loop in `main` of release.go: publish each
derived version in order, aborting the run on the first creation
failure. -/
def publishLoop (w : World) (dir hash : List Char) (files : List (List Char)) :
    List (List Char × Bool) → List Event × Outcome
  | [] => ([], Outcome.ok)
  | (ver, del) :: rest =>
    let r := ghRelease w (dir ++ ('/' :: ver)) hash del files
    if r.2 then
      (r.1 ++ (publishLoop w dir hash files rest).1,
       (publishLoop w dir hash files rest).2)
    else (r.1, Outcome.fatalCreateRelease (dir ++ ('/' :: ver)))

/-- Embedding of `main` in release.go: read `GITHUB_REF_NAME`, split it
on slashes into exactly two parts, validate the version, collect the
assets, resolve the commit hash, and publish the three derived
releases. -/
def main (w : World) (refName : List Char) : List Event × Outcome :=
  if refName = [] then ([], Outcome.fatalMissingEnv)
  else
    let parts := strings.Split '/' refName
    if parts.length ≠ 2 then ([], Outcome.fatalInvalidTag refName)
    else
      let dir := parts.headD []
      let version := (parts.drop 1).headD []
      if semver.IsValid version = true then
        match readDir w dir with
        | (ev1, none) => (ev1, Outcome.fatalListFiles dir)
        | (ev1, some files) =>
          match gitHash w refName with
          | (ev2, none) => (ev1 ++ ev2, Outcome.fatalGetHash)
          | (ev2, some hash) =>
            let r := publishLoop w dir hash files
              [(semver.Major version, true),
               (semver.MajorMinor version, true),
               (version, false)]
            (ev1 ++ (ev2 ++ r.1), r.2)
      else ([], Outcome.fatalInvalidVersion version)

end release

/-! ## Vocabulary for the claims -/

/-- A string without a slash (so it survives the split intact). -/
def noSlash (l : List Char) : Prop := '/' ∉ l

instance (l : List Char) : Decidable (noSlash l) := by
  unfold noSlash; infer_instance

/-- A decimal numeral as accepted by `semver.parseInt`: non-empty, all
digits, and no leading zero unless it is exactly the one digit zero. -/
def goodNum (l : List Char) : Prop :=
  l ≠ [] ∧ (∀ c ∈ l, semver.isDigit c = true) ∧
    (l.head? = some '0' → l = ['0'])

instance (l : List Char) : Decidable (goodNum l) := by
  unfold goodNum; infer_instance

/-- The version string `vX.Y.Z` formed from three numerals. -/
def vTag (X Y Z : List Char) : List Char :=
  'v' :: (X ++ ('.' :: (Y ++ ('.' :: Z))))

/-- The trace of one pre-delete attempt: the `gh release delete`
invocation, followed by the warning exactly when the oracle failed. -/
def delTrace (r : Option (List Char)) (tag : List Char) : List Event :=
  Event.execCmd ghName (delArgs tag) ::
    (match r with
     | none => [Event.warnDeleteFailed tag]
     | some _ => [])

/-- Extracts the tag of a `gh release create` invocation event. -/
def createTagOf : Event → Option (List Char)
  | Event.execCmd n args =>
    match args with
    | a :: b :: _ :: _ :: tag :: _ =>
      if n = ghName ∧ a = sRelease ∧ b = sCreate then some tag else none
    | _ => none
  | _ => none

/-- Extracts the target commit of a `gh release create` invocation event. -/
def createTargetOf : Event → Option (List Char)
  | Event.execCmd n args =>
    match args with
    | a :: b :: _ :: target :: _ :: _ =>
      if n = ghName ∧ a = sRelease ∧ b = sCreate then some target else none
    | _ => none
  | _ => none

/-- Extracts the tag of a `gh release delete` invocation event. -/
def delTagOf : Event → Option (List Char)
  | Event.execCmd n args =>
    match args with
    | a :: b :: _ :: _ :: tag :: _ =>
      if n = ghName ∧ a = sRelease ∧ b = sDelete then some tag else none
    | _ => none
  | _ => none

/-- Extracts the argument list of a `git` invocation event. -/
def gitCallOf : Event → Option (List (List Char))
  | Event.execCmd n args => if n = gitName then some args else none
  | _ => none

/-- Extracts any subprocess invocation event as a command-arguments pair. -/
def execCallOf : Event → Option (List Char × List (List Char))
  | Event.execCmd n args => some (n, args)
  | _ => none

/-- Lexicographic (byte-wise, as Go compares strings) order on names. -/
def lexLe : List Char → List Char → Bool
  | [], _ => true
  | _ :: _, [] => false
  | a :: as, b :: bs => if a < b then true else if a = b then lexLe as bs else false

/-- An all-success world with an empty directory listing, used to
instantiate theorems with hypotheses on concrete runs. -/
def w0 : World := ⟨fun _ => some [], fun _ _ => some []⟩

/-! ## Splitting lemmas -/

theorem Split_of_noSlash (v : List Char) (h : noSlash v) :
    strings.Split '/' v = [v] := by
  induction v with
  | nil => rfl
  | cons c cs ih =>
    simp only [noSlash, List.mem_cons, not_or] at h
    have hc : ¬(c = '/') := fun hh => h.1 hh.symm
    have ih' := ih h.2
    simp [strings.Split, hc, ih']

theorem Split_append (d v : List Char) (hd : noSlash d) (hv : noSlash v) :
    strings.Split '/' (d ++ ('/' :: v)) = [d, v] := by
  induction d with
  | nil => simp [strings.Split, Split_of_noSlash v hv]
  | cons c cs ih =>
    simp only [noSlash, List.mem_cons, not_or] at hd
    have hc : ¬(c = '/') := fun hh => hd.1 hh.symm
    have ih' := ih hd.2
    simp [strings.Split, hc, ih']

/-! ## List index helpers -/

theorem take_len_append (l r : List Char) : (l ++ r).take l.length = l := by
  induction l with
  | nil => simp
  | cons a l ih => simpa using ih

theorem getElem_len_append (l : List Char) (c : Char) (r : List Char) :
    (l ++ (c :: r))[l.length]? = some c := by
  induction l with
  | nil => simp
  | cons a l ih => simpa using ih

theorem drop_len_succ_append (l : List Char) (c : Char) (r : List Char) :
    (l ++ (c :: r)).drop (l.length + 1) = r := by
  induction l with
  | nil => simp
  | cons a l ih => simpa using ih

/-! ## Lemmas on the semver embedding -/

namespace semver

theorem takeDigits_append (l r : List Char)
    (hl : ∀ c ∈ l, isDigit c = true)
    (hr : ∀ c, r.head? = some c → isDigit c = false) :
    takeDigits (l ++ r) = (l, r) := by
  induction l with
  | nil =>
    cases r with
    | nil => rfl
    | cons c cs =>
      have hc : isDigit c = false := hr c rfl
      simp [takeDigits, hc]
  | cons c cs ih =>
    have hc : isDigit c = true := hl c (List.mem_cons_self c cs)
    have ih' := ih (fun d hd => hl d (List.mem_cons_of_mem _ hd))
    simp [takeDigits, hc, ih']

theorem parseInt_append (l r : List Char) (h : goodNum l)
    (hr : ∀ c, r.head? = some c → isDigit c = false) :
    parseInt (l ++ r) = some (l, r) := by
  obtain ⟨hne, hdig, hzero⟩ := h
  cases l with
  | nil => exact absurd rfl hne
  | cons c cs =>
    have hc : isDigit c = true := hdig c (List.mem_cons_self c cs)
    have htd : takeDigits (cs ++ r) = (cs, r) :=
      takeDigits_append cs r (fun d hd => hdig d (List.mem_cons_of_mem _ hd)) hr
    by_cases hc0 : c = '0'
    · have hcs : cs = [] := by
        have h1 := hzero (by simp [hc0])
        simpa [hc0] using h1
      subst hcs
      simp only [List.nil_append] at htd
      simp [parseInt, hc, htd]
    · simp [parseInt, hc, htd, hc0]

theorem parse_vTag (X Y Z : List Char) (hX : goodNum X) (hY : goodNum Y)
    (hZ : goodNum Z) :
    parse (vTag X Y Z) = some ⟨X, Y, Z, [], [], []⟩ := by
  have hdot : ∀ (t : List Char) (c : Char),
      ('.' :: t).head? = some c → isDigit c = false := by
    intro t c hc
    simp only [List.head?_cons, Option.some.injEq] at hc
    subst hc
    decide
  have h1 : parseInt (X ++ ('.' :: (Y ++ ('.' :: Z)))) =
      some (X, '.' :: (Y ++ ('.' :: Z))) :=
    parseInt_append _ _ hX (hdot _)
  have h2 : parseInt (Y ++ ('.' :: Z)) = some (Y, '.' :: Z) :=
    parseInt_append _ _ hY (hdot _)
  have h3 : parseInt Z = some (Z, []) := by
    have h4 := parseInt_append Z [] hZ (by intro c hc; simp at hc)
    simpa using h4
  simp [vTag, parse, h1, h2, h3, parseOptPre, parseOptBuild]

theorem IsValid_vTag (X Y Z : List Char) (hX : goodNum X) (hY : goodNum Y)
    (hZ : goodNum Z) : IsValid (vTag X Y Z) = true := by
  simp [IsValid, parse_vTag X Y Z hX hY hZ]

theorem Major_vTag (X Y Z : List Char) (hX : goodNum X) (hY : goodNum Y)
    (hZ : goodNum Z) : Major (vTag X Y Z) = 'v' :: X := by
  unfold Major
  rw [parse_vTag X Y Z hX hY hZ]
  show (vTag X Y Z).take (1 + X.length) = 'v' :: X
  have h1 : vTag X Y Z = ('v' :: X) ++ ('.' :: (Y ++ ('.' :: Z))) := by
    simp [vTag]
  have h2 : 1 + X.length = ('v' :: X).length := by simp; omega
  rw [h1, h2, take_len_append]

theorem MajorMinor_vTag (X Y Z : List Char) (hX : goodNum X) (hY : goodNum Y)
    (hZ : goodNum Z) : MajorMinor (vTag X Y Z) = 'v' :: (X ++ ('.' :: Y)) := by
  unfold MajorMinor
  rw [parse_vTag X Y Z hX hY hZ]
  show (if 1 + X.length + 1 + Y.length ≤ (vTag X Y Z).length ∧
      (vTag X Y Z)[1 + X.length]? = some '.' ∧
      ((vTag X Y Z).drop (1 + X.length + 1)).take Y.length = Y then
    (vTag X Y Z).take (1 + X.length + 1 + Y.length)
  else (vTag X Y Z).take (1 + X.length) ++ ('.' :: Y)) = 'v' :: (X ++ ('.' :: Y))
  have hZpos : 0 < Z.length := List.length_pos.mpr hZ.1
  have hlen : (vTag X Y Z).length =
      1 + X.length + 1 + Y.length + 1 + Z.length := by
    simp [vTag]; omega
  have hsplit1 : vTag X Y Z = ('v' :: X) ++ ('.' :: (Y ++ ('.' :: Z))) := by
    simp [vTag]
  have hidx : 1 + X.length = ('v' :: X).length := by simp; omega
  have hget : (vTag X Y Z)[1 + X.length]? = some '.' := by
    rw [hsplit1, hidx, getElem_len_append]
  have hdrop : (vTag X Y Z).drop (1 + X.length + 1) = Y ++ ('.' :: Z) := by
    rw [hsplit1, hidx, drop_len_succ_append]
  have htake : ((vTag X Y Z).drop (1 + X.length + 1)).take Y.length = Y := by
    rw [hdrop, take_len_append]
  rw [if_pos ⟨by omega, hget, htake⟩]
  have hsplit2 : vTag X Y Z = ('v' :: (X ++ ('.' :: Y))) ++ ('.' :: Z) := by
    simp [vTag]
  have hidx2 : 1 + X.length + 1 + Y.length = ('v' :: (X ++ ('.' :: Y))).length := by
    simp; omega
  rw [hsplit2, hidx2, take_len_append]

end semver

theorem not_slash_of_digits (l : List Char)
    (h : ∀ c ∈ l, semver.isDigit c = true) : '/' ∉ l := by
  intro hm
  have h1 := h '/' hm
  exact absurd h1 (by decide)

theorem noSlash_vTag (X Y Z : List Char) (hX : goodNum X) (hY : goodNum Y)
    (hZ : goodNum Z) : noSlash (vTag X Y Z) := by
  intro hm
  simp only [vTag, List.mem_cons, List.mem_append] at hm
  rcases hm with h | h
  · exact absurd h (by decide)
  rcases h with h | h
  · exact not_slash_of_digits X hX.2.1 h
  rcases h with h | h
  · exact absurd h (by decide)
  rcases h with h | h
  · exact not_slash_of_digits Y hY.2.1 h
  rcases h with h | h
  · exact absurd h (by decide)
  · exact not_slash_of_digits Z hZ.2.1 h

/-! ## Trace helpers -/

theorem readDir_some (w : World) (dir : List Char) (entries : List DirEntry)
    (hfs : w.readDir dir = some entries) :
    release.readDir w dir =
      (Event.readDirCall dir :: (release.readDirLoop dir entries).1,
       some (release.readDirLoop dir entries).2) := by
  unfold release.readDir
  rw [hfs]

theorem readDirLoop_fst (dir : List Char) :
    ∀ es : List DirEntry,
      (release.readDirLoop dir es).1 =
        (es.filter (fun e => e.isDir)).map (fun e => Event.warnSkipDir e.name)
  | [] => by simp [release.readDirLoop]
  | e :: es => by
    by_cases h : e.isDir <;>
      simp [release.readDirLoop, h, readDirLoop_fst dir es, List.filter]

theorem readDirLoop_snd (dir : List Char) :
    ∀ es : List DirEntry,
      (release.readDirLoop dir es).2 =
        (es.filter (fun e => !e.isDir)).map (fun e => filepath.Join dir e.name)
  | [] => by simp [release.readDirLoop]
  | e :: es => by
    by_cases h : e.isDir <;>
      simp [release.readDirLoop, h, readDirLoop_snd dir es, List.filter]

theorem filterMap_readDirLoop {α : Type} (dir : List Char)
    (f : Event → Option α) (hf : ∀ n, f (Event.warnSkipDir n) = none) :
    ∀ es : List DirEntry,
      List.filterMap f (release.readDirLoop dir es).1 = []
  | [] => by simp [release.readDirLoop]
  | e :: es => by
    by_cases h : e.isDir <;>
      simp [release.readDirLoop, h, hf, filterMap_readDirLoop dir f hf es]

theorem ghRelease_true_eq (w : World) (tag target : List Char)
    (files : List (List Char)) :
    release.ghRelease w tag target true files =
      (delTrace (w.exec ghName (delArgs tag)) tag ++
        [Event.execCmd ghName (createArgs target tag files)],
       (w.exec ghName (createArgs target tag files)).isSome) := by
  unfold release.ghRelease release.execCmd delTrace
  cases w.exec ghName (delArgs tag) <;>
    cases hc : w.exec ghName (createArgs target tag files) <;> simp [hc]

theorem ghRelease_false_eq (w : World) (tag target : List Char)
    (files : List (List Char)) :
    release.ghRelease w tag target false files =
      ([Event.execCmd ghName (createArgs target tag files)],
       (w.exec ghName (createArgs target tag files)).isSome) := by
  unfold release.ghRelease release.execCmd
  cases hc : w.exec ghName (createArgs target tag files) <;> simp [hc]

/-! Evaluation of the event extractors on each event shape. -/

theorem createTagOf_git (r : List Char) :
    createTagOf (Event.execCmd gitName (gitArgs r)) = none := rfl

theorem createTagOf_del (t : List Char) :
    createTagOf (Event.execCmd ghName (delArgs t)) = none := rfl

theorem createTagOf_create (h t : List Char) (fs : List (List Char)) :
    createTagOf (Event.execCmd ghName (createArgs h t fs)) = some t := rfl

theorem createTagOf_readDirCall (d : List Char) :
    createTagOf (Event.readDirCall d) = none := rfl

theorem createTagOf_warnSkip (n : List Char) :
    createTagOf (Event.warnSkipDir n) = none := rfl

theorem createTagOf_warnDel (t : List Char) :
    createTagOf (Event.warnDeleteFailed t) = none := rfl

theorem delTagOf_git (r : List Char) :
    delTagOf (Event.execCmd gitName (gitArgs r)) = none := rfl

theorem delTagOf_del (t : List Char) :
    delTagOf (Event.execCmd ghName (delArgs t)) = some t := rfl

theorem delTagOf_create (h t : List Char) (fs : List (List Char)) :
    delTagOf (Event.execCmd ghName (createArgs h t fs)) = none := rfl

theorem delTagOf_readDirCall (d : List Char) :
    delTagOf (Event.readDirCall d) = none := rfl

theorem delTagOf_warnSkip (n : List Char) :
    delTagOf (Event.warnSkipDir n) = none := rfl

theorem delTagOf_warnDel (t : List Char) :
    delTagOf (Event.warnDeleteFailed t) = none := rfl

theorem createTargetOf_git (r : List Char) :
    createTargetOf (Event.execCmd gitName (gitArgs r)) = none := rfl

theorem createTargetOf_del (t : List Char) :
    createTargetOf (Event.execCmd ghName (delArgs t)) = none := rfl

theorem createTargetOf_create (h t : List Char) (fs : List (List Char)) :
    createTargetOf (Event.execCmd ghName (createArgs h t fs)) = some h := rfl

theorem createTargetOf_readDirCall (d : List Char) :
    createTargetOf (Event.readDirCall d) = none := rfl

theorem createTargetOf_warnSkip (n : List Char) :
    createTargetOf (Event.warnSkipDir n) = none := rfl

theorem createTargetOf_warnDel (t : List Char) :
    createTargetOf (Event.warnDeleteFailed t) = none := rfl

theorem gitCallOf_git (r : List Char) :
    gitCallOf (Event.execCmd gitName (gitArgs r)) = some (gitArgs r) := rfl

theorem gitCallOf_del (t : List Char) :
    gitCallOf (Event.execCmd ghName (delArgs t)) = none := rfl

theorem gitCallOf_create (h t : List Char) (fs : List (List Char)) :
    gitCallOf (Event.execCmd ghName (createArgs h t fs)) = none := rfl

theorem gitCallOf_readDirCall (d : List Char) :
    gitCallOf (Event.readDirCall d) = none := rfl

theorem gitCallOf_warnSkip (n : List Char) :
    gitCallOf (Event.warnSkipDir n) = none := rfl

theorem gitCallOf_warnDel (t : List Char) :
    gitCallOf (Event.warnDeleteFailed t) = none := rfl

theorem execCallOf_exec (n : List Char) (a : List (List Char)) :
    execCallOf (Event.execCmd n a) = some (n, a) := rfl

theorem execCallOf_readDirCall (d : List Char) :
    execCallOf (Event.readDirCall d) = none := rfl

theorem execCallOf_warnSkip (n : List Char) :
    execCallOf (Event.warnSkipDir n) = none := rfl

theorem execCallOf_warnDel (t : List Char) :
    execCallOf (Event.warnDeleteFailed t) = none := rfl

/-! ## The successful-run trace

Under a world where the listing, the hash resolution and all three
creations succeed (the two deletions may succeed or fail), the full
trace of the run and outcome are characterized below: this is the shared
backbone of the claims about successful runs. -/

theorem main_success (w : World) (dir ver raw : List Char)
    (entries : List DirEntry) (o1 o2 o3 : List Char)
    (hdir : noSlash dir) (hver : noSlash ver)
    (hvalid : semver.IsValid ver = true)
    (hfs : w.readDir dir = some entries)
    (hgit : w.exec gitName (gitArgs (dir ++ ('/' :: ver))) = some raw)
    (hc1 : w.exec ghName (createArgs (strings.TrimSpace raw)
      (dir ++ ('/' :: semver.Major ver))
      ((release.readDirLoop dir entries).2)) = some o1)
    (hc2 : w.exec ghName (createArgs (strings.TrimSpace raw)
      (dir ++ ('/' :: semver.MajorMinor ver))
      ((release.readDirLoop dir entries).2)) = some o2)
    (hc3 : w.exec ghName (createArgs (strings.TrimSpace raw)
      (dir ++ ('/' :: ver))
      ((release.readDirLoop dir entries).2)) = some o3) :
    release.main w (dir ++ ('/' :: ver)) =
      (Event.readDirCall dir :: ((release.readDirLoop dir entries).1 ++
        (Event.execCmd gitName (gitArgs (dir ++ ('/' :: ver))) ::
          (delTrace (w.exec ghName (delArgs (dir ++ ('/' :: semver.Major ver))))
              (dir ++ ('/' :: semver.Major ver)) ++
            (Event.execCmd ghName (createArgs (strings.TrimSpace raw)
                (dir ++ ('/' :: semver.Major ver))
                ((release.readDirLoop dir entries).2)) ::
              (delTrace
                  (w.exec ghName (delArgs (dir ++ ('/' :: semver.MajorMinor ver))))
                  (dir ++ ('/' :: semver.MajorMinor ver)) ++
                [Event.execCmd ghName (createArgs (strings.TrimSpace raw)
                    (dir ++ ('/' :: semver.MajorMinor ver))
                    ((release.readDirLoop dir entries).2)),
                 Event.execCmd ghName (createArgs (strings.TrimSpace raw)
                    (dir ++ ('/' :: ver))
                    ((release.readDirLoop dir entries).2))]))))),
       Outcome.ok) := by
  have hsplit := Split_append dir ver hdir hver
  simp [release.main, hsplit, hvalid, readDir_some w dir entries hfs,
    release.gitHash, release.execCmd, hgit, release.publishLoop,
    ghRelease_true_eq, ghRelease_false_eq, hc1, hc2, hc3]

/-! ## Claims -/

/-- Claim C1: for every valid input reference name of the form
`component/vX.Y.Z`, the Release Publisher attempts exactly three release
tags — `component/vX`, `component/vX.Y` and `component/vX.Y.Z` — in that
order, and no others (stated over a run where the three creations
succeed; a creation failure aborts the run, which is claim C3). -/
theorem claim1 (w : World) (dir X Y Z : List Char) (entries : List DirEntry)
    (raw o1 o2 o3 : List Char)
    (hdir : noSlash dir) (hX : goodNum X) (hY : goodNum Y) (hZ : goodNum Z)
    (hfs : w.readDir dir = some entries)
    (hgit : w.exec gitName (gitArgs (dir ++ ('/' :: vTag X Y Z))) = some raw)
    (hc1 : w.exec ghName (createArgs (strings.TrimSpace raw)
      (dir ++ ('/' :: ('v' :: X)))
      ((release.readDirLoop dir entries).2)) = some o1)
    (hc2 : w.exec ghName (createArgs (strings.TrimSpace raw)
      (dir ++ ('/' :: ('v' :: (X ++ ('.' :: Y)))))
      ((release.readDirLoop dir entries).2)) = some o2)
    (hc3 : w.exec ghName (createArgs (strings.TrimSpace raw)
      (dir ++ ('/' :: vTag X Y Z))
      ((release.readDirLoop dir entries).2)) = some o3) :
    List.filterMap createTagOf
      (release.main w (dir ++ ('/' :: vTag X Y Z))).1 =
      [dir ++ ('/' :: ('v' :: X)),
       dir ++ ('/' :: ('v' :: (X ++ ('.' :: Y)))),
       dir ++ ('/' :: vTag X Y Z)] := by
  have hM := semver.Major_vTag X Y Z hX hY hZ
  have hMM := semver.MajorMinor_vTag X Y Z hX hY hZ
  have hvalid := semver.IsValid_vTag X Y Z hX hY hZ
  have hver := noSlash_vTag X Y Z hX hY hZ
  rw [main_success w dir (vTag X Y Z) raw entries o1 o2 o3 hdir hver hvalid
    hfs hgit (by rw [hM]; exact hc1) (by rw [hMM]; exact hc2) hc3]
  rw [hM, hMM]
  cases hr1 : w.exec ghName (delArgs (dir ++ ('/' :: ('v' :: X)))) <;>
    cases hr2 : w.exec ghName
      (delArgs (dir ++ ('/' :: ('v' :: (X ++ ('.' :: Y)))))) <;>
    simp [delTrace, createTagOf_git, createTagOf_del, createTagOf_create,
      createTagOf_warnSkip, createTagOf_warnDel, createTagOf_readDirCall,
      filterMap_readDirLoop dir createTagOf (fun _ => rfl)]

theorem claim1_witness :
    noSlash ['w'] ∧ goodNum ['2'] ∧ goodNum ['3'] ∧ goodNum ['1'] ∧
    w0.readDir ['w'] = some [] ∧
    w0.exec gitName (gitArgs (['w'] ++ ('/' :: vTag ['2'] ['3'] ['1']))) =
      some [] ∧
    List.filterMap createTagOf
      (release.main w0 (['w'] ++ ('/' :: vTag ['2'] ['3'] ['1']))).1 =
      [['w'] ++ ('/' :: ('v' :: ['2'])),
       ['w'] ++ ('/' :: ('v' :: (['2'] ++ ('.' :: ['3'])))),
       ['w'] ++ ('/' :: vTag ['2'] ['3'] ['1'])] :=
  ⟨by decide, by decide, by decide, by decide, rfl, rfl,
   claim1 w0 ['w'] ['2'] ['3'] ['1'] [] [] [] [] []
     (by decide) (by decide) (by decide) (by decide) rfl rfl rfl rfl rfl⟩

/-- The exact-version tag is longer than the major-alias tag, hence
distinct from it. -/
theorem vTag_ne_major (dir X Y Z : List Char) :
    dir ++ ('/' :: vTag X Y Z) ≠ dir ++ ('/' :: ('v' :: X)) := by
  intro h
  have h2 := congrArg List.length h
  simp [vTag] at h2

/-- The exact-version tag is longer than the major-minor-alias tag,
hence distinct from it. -/
theorem vTag_ne_majorMinor (dir X Y Z : List Char) :
    dir ++ ('/' :: vTag X Y Z) ≠ dir ++ ('/' :: ('v' :: (X ++ ('.' :: Y)))) := by
  intro h
  have h2 := congrArg List.length h
  simp [vTag] at h2

/-- Claim C10: on a fully successful run, exactly six subprocess
invocations occur, in this order: the commit resolution, then for the
major alias a delete followed by a create, for the major-minor alias a
delete followed by a create, and for the exact version a create only. -/
theorem claim10 (w : World) (dir ver raw : List Char)
    (entries : List DirEntry) (o1 o2 o3 : List Char)
    (hdir : noSlash dir) (hver : noSlash ver)
    (hvalid : semver.IsValid ver = true)
    (hfs : w.readDir dir = some entries)
    (hgit : w.exec gitName (gitArgs (dir ++ ('/' :: ver))) = some raw)
    (hc1 : w.exec ghName (createArgs (strings.TrimSpace raw)
      (dir ++ ('/' :: semver.Major ver))
      ((release.readDirLoop dir entries).2)) = some o1)
    (hc2 : w.exec ghName (createArgs (strings.TrimSpace raw)
      (dir ++ ('/' :: semver.MajorMinor ver))
      ((release.readDirLoop dir entries).2)) = some o2)
    (hc3 : w.exec ghName (createArgs (strings.TrimSpace raw)
      (dir ++ ('/' :: ver))
      ((release.readDirLoop dir entries).2)) = some o3) :
    List.filterMap execCallOf (release.main w (dir ++ ('/' :: ver))).1 =
      [(gitName, gitArgs (dir ++ ('/' :: ver))),
       (ghName, delArgs (dir ++ ('/' :: semver.Major ver))),
       (ghName, createArgs (strings.TrimSpace raw)
         (dir ++ ('/' :: semver.Major ver))
         ((release.readDirLoop dir entries).2)),
       (ghName, delArgs (dir ++ ('/' :: semver.MajorMinor ver))),
       (ghName, createArgs (strings.TrimSpace raw)
         (dir ++ ('/' :: semver.MajorMinor ver))
         ((release.readDirLoop dir entries).2)),
       (ghName, createArgs (strings.TrimSpace raw)
         (dir ++ ('/' :: ver))
         ((release.readDirLoop dir entries).2))] := by
  rw [main_success w dir ver raw entries o1 o2 o3 hdir hver hvalid
    hfs hgit hc1 hc2 hc3]
  cases hr1 : w.exec ghName (delArgs (dir ++ ('/' :: semver.Major ver))) <;>
    cases hr2 : w.exec ghName
      (delArgs (dir ++ ('/' :: semver.MajorMinor ver))) <;>
    simp [delTrace, execCallOf_exec, execCallOf_warnSkip, execCallOf_warnDel,
      execCallOf_readDirCall,
      filterMap_readDirLoop dir execCallOf (fun _ => rfl)]

theorem claim10_witness :
    noSlash ['w'] ∧ noSlash ['v', '2', '.', '3', '.', '1'] ∧
    semver.IsValid ['v', '2', '.', '3', '.', '1'] = true ∧
    w0.readDir ['w'] = some [] ∧
    List.filterMap execCallOf
      (release.main w0 (['w'] ++ ('/' :: ['v', '2', '.', '3', '.', '1']))).1 =
      [(gitName, gitArgs (['w'] ++ ('/' :: ['v', '2', '.', '3', '.', '1']))),
       (ghName, delArgs (['w'] ++
         ('/' :: semver.Major ['v', '2', '.', '3', '.', '1']))),
       (ghName, createArgs (strings.TrimSpace [])
         (['w'] ++ ('/' :: semver.Major ['v', '2', '.', '3', '.', '1']))
         ((release.readDirLoop ['w'] []).2)),
       (ghName, delArgs (['w'] ++
         ('/' :: semver.MajorMinor ['v', '2', '.', '3', '.', '1']))),
       (ghName, createArgs (strings.TrimSpace [])
         (['w'] ++ ('/' :: semver.MajorMinor ['v', '2', '.', '3', '.', '1']))
         ((release.readDirLoop ['w'] []).2)),
       (ghName, createArgs (strings.TrimSpace [])
         (['w'] ++ ('/' :: ['v', '2', '.', '3', '.', '1']))
         ((release.readDirLoop ['w'] []).2))] :=
  ⟨by decide, by decide, by decide, rfl,
   claim10 w0 ['w'] ['v', '2', '.', '3', '.', '1'] [] [] [] [] []
     (by decide) (by decide) (by decide) rfl rfl rfl rfl rfl⟩

/-- Claim C8: on a successful run the commit hash is resolved exactly
once, from the full reference name; the hash passed as the target of all
three release creations is the git output trimmed of surrounding
whitespace, identical for the three. -/
theorem claim8 (w : World) (dir ver raw : List Char)
    (entries : List DirEntry) (o1 o2 o3 : List Char)
    (hdir : noSlash dir) (hver : noSlash ver)
    (hvalid : semver.IsValid ver = true)
    (hfs : w.readDir dir = some entries)
    (hgit : w.exec gitName (gitArgs (dir ++ ('/' :: ver))) = some raw)
    (hc1 : w.exec ghName (createArgs (strings.TrimSpace raw)
      (dir ++ ('/' :: semver.Major ver))
      ((release.readDirLoop dir entries).2)) = some o1)
    (hc2 : w.exec ghName (createArgs (strings.TrimSpace raw)
      (dir ++ ('/' :: semver.MajorMinor ver))
      ((release.readDirLoop dir entries).2)) = some o2)
    (hc3 : w.exec ghName (createArgs (strings.TrimSpace raw)
      (dir ++ ('/' :: ver))
      ((release.readDirLoop dir entries).2)) = some o3) :
    List.filterMap gitCallOf (release.main w (dir ++ ('/' :: ver))).1 =
      [gitArgs (dir ++ ('/' :: ver))] ∧
    List.filterMap createTargetOf (release.main w (dir ++ ('/' :: ver))).1 =
      [strings.TrimSpace raw, strings.TrimSpace raw, strings.TrimSpace raw] := by
  rw [main_success w dir ver raw entries o1 o2 o3 hdir hver hvalid
    hfs hgit hc1 hc2 hc3]
  constructor <;>
    cases hr1 : w.exec ghName (delArgs (dir ++ ('/' :: semver.Major ver))) <;>
    cases hr2 : w.exec ghName
      (delArgs (dir ++ ('/' :: semver.MajorMinor ver))) <;>
    simp [delTrace, gitCallOf_git, gitCallOf_del, gitCallOf_create,
      gitCallOf_warnSkip, gitCallOf_warnDel, gitCallOf_readDirCall,
      createTargetOf_git, createTargetOf_del, createTargetOf_create,
      createTargetOf_warnSkip, createTargetOf_warnDel,
      createTargetOf_readDirCall,
      filterMap_readDirLoop dir gitCallOf (fun _ => rfl),
      filterMap_readDirLoop dir createTargetOf (fun _ => rfl)]

theorem claim8_witness :
    noSlash ['w'] ∧ noSlash ['v', '2', '.', '3', '.', '1'] ∧
    semver.IsValid ['v', '2', '.', '3', '.', '1'] = true ∧
    w0.readDir ['w'] = some [] ∧
    (List.filterMap gitCallOf
      (release.main w0 (['w'] ++ ('/' :: ['v', '2', '.', '3', '.', '1']))).1 =
      [gitArgs (['w'] ++ ('/' :: ['v', '2', '.', '3', '.', '1']))] ∧
    List.filterMap createTargetOf
      (release.main w0 (['w'] ++ ('/' :: ['v', '2', '.', '3', '.', '1']))).1 =
      [strings.TrimSpace [], strings.TrimSpace [], strings.TrimSpace []]) :=
  ⟨by decide, by decide, by decide, rfl,
   claim8 w0 ['w'] ['v', '2', '.', '3', '.', '1'] [] [] [] [] []
     (by decide) (by decide) (by decide) rfl rfl rfl rfl rfl⟩

/-- Claim C5: on a successful run over `component/vX.Y.Z`, a pre-delete
is attempted exactly for the major and major-minor alias tags, in that
order, and never for the exact-version tag. -/
theorem claim5 (w : World) (dir X Y Z : List Char) (entries : List DirEntry)
    (raw o1 o2 o3 : List Char)
    (hdir : noSlash dir) (hX : goodNum X) (hY : goodNum Y) (hZ : goodNum Z)
    (hfs : w.readDir dir = some entries)
    (hgit : w.exec gitName (gitArgs (dir ++ ('/' :: vTag X Y Z))) = some raw)
    (hc1 : w.exec ghName (createArgs (strings.TrimSpace raw)
      (dir ++ ('/' :: ('v' :: X)))
      ((release.readDirLoop dir entries).2)) = some o1)
    (hc2 : w.exec ghName (createArgs (strings.TrimSpace raw)
      (dir ++ ('/' :: ('v' :: (X ++ ('.' :: Y)))))
      ((release.readDirLoop dir entries).2)) = some o2)
    (hc3 : w.exec ghName (createArgs (strings.TrimSpace raw)
      (dir ++ ('/' :: vTag X Y Z))
      ((release.readDirLoop dir entries).2)) = some o3) :
    List.filterMap delTagOf
      (release.main w (dir ++ ('/' :: vTag X Y Z))).1 =
      [dir ++ ('/' :: ('v' :: X)),
       dir ++ ('/' :: ('v' :: (X ++ ('.' :: Y))))] ∧
    dir ++ ('/' :: vTag X Y Z) ∉
      List.filterMap delTagOf
        (release.main w (dir ++ ('/' :: vTag X Y Z))).1 := by
  have hM := semver.Major_vTag X Y Z hX hY hZ
  have hMM := semver.MajorMinor_vTag X Y Z hX hY hZ
  have hvalid := semver.IsValid_vTag X Y Z hX hY hZ
  have hver := noSlash_vTag X Y Z hX hY hZ
  have hfilter : List.filterMap delTagOf
      (release.main w (dir ++ ('/' :: vTag X Y Z))).1 =
      [dir ++ ('/' :: ('v' :: X)),
       dir ++ ('/' :: ('v' :: (X ++ ('.' :: Y))))] := by
    rw [main_success w dir (vTag X Y Z) raw entries o1 o2 o3 hdir hver hvalid
      hfs hgit (by rw [hM]; exact hc1) (by rw [hMM]; exact hc2) hc3]
    rw [hM, hMM]
    cases hr1 : w.exec ghName (delArgs (dir ++ ('/' :: ('v' :: X)))) <;>
      cases hr2 : w.exec ghName
        (delArgs (dir ++ ('/' :: ('v' :: (X ++ ('.' :: Y)))))) <;>
      simp [delTrace, delTagOf_git, delTagOf_del, delTagOf_create,
        delTagOf_warnSkip, delTagOf_warnDel, delTagOf_readDirCall,
        filterMap_readDirLoop dir delTagOf (fun _ => rfl)]
  refine ⟨hfilter, ?_⟩
  rw [hfilter]
  simp only [List.mem_cons, List.not_mem_nil, or_false]
  push_neg
  exact ⟨vTag_ne_major dir X Y Z, vTag_ne_majorMinor dir X Y Z⟩

theorem claim5_witness :
    noSlash ['w'] ∧ goodNum ['2'] ∧ goodNum ['3'] ∧ goodNum ['1'] ∧
    w0.readDir ['w'] = some [] ∧
    (List.filterMap delTagOf
      (release.main w0 (['w'] ++ ('/' :: vTag ['2'] ['3'] ['1']))).1 =
      [['w'] ++ ('/' :: ('v' :: ['2'])),
       ['w'] ++ ('/' :: ('v' :: (['2'] ++ ('.' :: ['3']))))] ∧
    ['w'] ++ ('/' :: vTag ['2'] ['3'] ['1']) ∉
      List.filterMap delTagOf
        (release.main w0 (['w'] ++ ('/' :: vTag ['2'] ['3'] ['1']))).1) :=
  ⟨by decide, by decide, by decide, by decide, rfl,
   claim5 w0 ['w'] ['2'] ['3'] ['1'] [] [] [] [] []
     (by decide) (by decide) (by decide) (by decide) rfl rfl rfl rfl rfl⟩

/-- Claim C4: a failed pre-delete of a floating alias is non-fatal: the
warning is logged, the creation for that tag is attempted regardless,
and when all three creations succeed the process exits zero. -/
theorem claim4 (w : World) (dir ver raw : List Char)
    (entries : List DirEntry) (o1 o2 o3 : List Char)
    (hdir : noSlash dir) (hver : noSlash ver)
    (hvalid : semver.IsValid ver = true)
    (hfs : w.readDir dir = some entries)
    (hgit : w.exec gitName (gitArgs (dir ++ ('/' :: ver))) = some raw)
    (hd1 : w.exec ghName (delArgs (dir ++ ('/' :: semver.Major ver))) = none)
    (hd2 : w.exec ghName
      (delArgs (dir ++ ('/' :: semver.MajorMinor ver))) = none)
    (hc1 : w.exec ghName (createArgs (strings.TrimSpace raw)
      (dir ++ ('/' :: semver.Major ver))
      ((release.readDirLoop dir entries).2)) = some o1)
    (hc2 : w.exec ghName (createArgs (strings.TrimSpace raw)
      (dir ++ ('/' :: semver.MajorMinor ver))
      ((release.readDirLoop dir entries).2)) = some o2)
    (hc3 : w.exec ghName (createArgs (strings.TrimSpace raw)
      (dir ++ ('/' :: ver))
      ((release.readDirLoop dir entries).2)) = some o3) :
    (release.main w (dir ++ ('/' :: ver))).2 = Outcome.ok ∧
    Event.warnDeleteFailed (dir ++ ('/' :: semver.Major ver)) ∈
      (release.main w (dir ++ ('/' :: ver))).1 ∧
    Event.warnDeleteFailed (dir ++ ('/' :: semver.MajorMinor ver)) ∈
      (release.main w (dir ++ ('/' :: ver))).1 ∧
    List.filterMap createTagOf (release.main w (dir ++ ('/' :: ver))).1 =
      [dir ++ ('/' :: semver.Major ver),
       dir ++ ('/' :: semver.MajorMinor ver),
       dir ++ ('/' :: ver)] := by
  rw [main_success w dir ver raw entries o1 o2 o3 hdir hver hvalid
    hfs hgit hc1 hc2 hc3, hd1, hd2]
  refine ⟨rfl, ?_, ?_, ?_⟩
  · simp [delTrace]
  · simp [delTrace]
  · simp [delTrace, createTagOf_git, createTagOf_del, createTagOf_create,
      createTagOf_warnSkip, createTagOf_warnDel, createTagOf_readDirCall,
      filterMap_readDirLoop dir createTagOf (fun _ => rfl)]

/-- A world in which every `gh release delete` call fails while every
other call succeeds with empty output. -/
def wDelFail : World :=
  ⟨fun _ => some [],
   fun n a =>
     if n = ghName ∧ a.take 2 = [sRelease, sDelete] then none else some []⟩

theorem claim4_witness :
    noSlash ['w'] ∧ noSlash ['v', '2', '.', '3', '.', '1'] ∧
    semver.IsValid ['v', '2', '.', '3', '.', '1'] = true ∧
    wDelFail.readDir ['w'] = some [] ∧
    wDelFail.exec ghName (delArgs (['w'] ++
      ('/' :: semver.Major ['v', '2', '.', '3', '.', '1']))) = none ∧
    wDelFail.exec ghName (delArgs (['w'] ++
      ('/' :: semver.MajorMinor ['v', '2', '.', '3', '.', '1']))) = none ∧
    ((release.main wDelFail
        (['w'] ++ ('/' :: ['v', '2', '.', '3', '.', '1']))).2 = Outcome.ok ∧
    Event.warnDeleteFailed (['w'] ++
        ('/' :: semver.Major ['v', '2', '.', '3', '.', '1'])) ∈
      (release.main wDelFail
        (['w'] ++ ('/' :: ['v', '2', '.', '3', '.', '1']))).1 ∧
    Event.warnDeleteFailed (['w'] ++
        ('/' :: semver.MajorMinor ['v', '2', '.', '3', '.', '1'])) ∈
      (release.main wDelFail
        (['w'] ++ ('/' :: ['v', '2', '.', '3', '.', '1']))).1 ∧
    List.filterMap createTagOf
      (release.main wDelFail
        (['w'] ++ ('/' :: ['v', '2', '.', '3', '.', '1']))).1 =
      [['w'] ++ ('/' :: semver.Major ['v', '2', '.', '3', '.', '1']),
       ['w'] ++ ('/' :: semver.MajorMinor ['v', '2', '.', '3', '.', '1']),
       ['w'] ++ ('/' :: ['v', '2', '.', '3', '.', '1'])]) :=
  ⟨by decide, by decide, by decide, rfl, rfl, rfl,
   claim4 wDelFail ['w'] ['v', '2', '.', '3', '.', '1'] [] [] [] [] []
     (by decide) (by decide) (by decide) rfl rfl rfl rfl rfl rfl rfl⟩

/-- The major-minor-alias tag is longer than the major-alias tag, hence
distinct from it. -/
theorem majorMinor_ne_major (dir X Y : List Char) :
    dir ++ ('/' :: ('v' :: (X ++ ('.' :: Y)))) ≠
      dir ++ ('/' :: ('v' :: X)) := by
  intro h
  have h2 := congrArg List.length h
  simp at h2

/-- Claim C3: if release creation fails for any of the three tags (the
creations before it having succeeded, since an earlier failure already
aborts), the run aborts immediately with a non-zero exit and does not
attempt any of the remaining tags: a failure on the major alias leaves
the major-minor and exact tags unattempted, a failure on the major-minor
alias leaves the exact-version release unattempted, and a failure on the
exact version aborts after the third creation. -/
theorem claim3 (w : World) (dir X Y Z : List Char) (entries : List DirEntry)
    (raw : List Char)
    (hdir : noSlash dir) (hX : goodNum X) (hY : goodNum Y) (hZ : goodNum Z)
    (hfs : w.readDir dir = some entries)
    (hgit : w.exec gitName (gitArgs (dir ++ ('/' :: vTag X Y Z))) = some raw) :
    (w.exec ghName (createArgs (strings.TrimSpace raw)
        (dir ++ ('/' :: ('v' :: X)))
        ((release.readDirLoop dir entries).2)) = none →
      (release.main w (dir ++ ('/' :: vTag X Y Z))).2 =
        Outcome.fatalCreateRelease (dir ++ ('/' :: ('v' :: X))) ∧
      List.filterMap createTagOf
        (release.main w (dir ++ ('/' :: vTag X Y Z))).1 =
        [dir ++ ('/' :: ('v' :: X))] ∧
      dir ++ ('/' :: ('v' :: (X ++ ('.' :: Y)))) ∉
        List.filterMap createTagOf
          (release.main w (dir ++ ('/' :: vTag X Y Z))).1 ∧
      dir ++ ('/' :: vTag X Y Z) ∉
        List.filterMap createTagOf
          (release.main w (dir ++ ('/' :: vTag X Y Z))).1) ∧
    (∀ o1 : List Char,
      w.exec ghName (createArgs (strings.TrimSpace raw)
        (dir ++ ('/' :: ('v' :: X)))
        ((release.readDirLoop dir entries).2)) = some o1 →
      w.exec ghName (createArgs (strings.TrimSpace raw)
        (dir ++ ('/' :: ('v' :: (X ++ ('.' :: Y)))))
        ((release.readDirLoop dir entries).2)) = none →
      (release.main w (dir ++ ('/' :: vTag X Y Z))).2 =
        Outcome.fatalCreateRelease
          (dir ++ ('/' :: ('v' :: (X ++ ('.' :: Y))))) ∧
      List.filterMap createTagOf
        (release.main w (dir ++ ('/' :: vTag X Y Z))).1 =
        [dir ++ ('/' :: ('v' :: X)),
         dir ++ ('/' :: ('v' :: (X ++ ('.' :: Y))))] ∧
      dir ++ ('/' :: vTag X Y Z) ∉
        List.filterMap createTagOf
          (release.main w (dir ++ ('/' :: vTag X Y Z))).1) ∧
    (∀ o1 o2 : List Char,
      w.exec ghName (createArgs (strings.TrimSpace raw)
        (dir ++ ('/' :: ('v' :: X)))
        ((release.readDirLoop dir entries).2)) = some o1 →
      w.exec ghName (createArgs (strings.TrimSpace raw)
        (dir ++ ('/' :: ('v' :: (X ++ ('.' :: Y)))))
        ((release.readDirLoop dir entries).2)) = some o2 →
      w.exec ghName (createArgs (strings.TrimSpace raw)
        (dir ++ ('/' :: vTag X Y Z))
        ((release.readDirLoop dir entries).2)) = none →
      (release.main w (dir ++ ('/' :: vTag X Y Z))).2 =
        Outcome.fatalCreateRelease (dir ++ ('/' :: vTag X Y Z)) ∧
      List.filterMap createTagOf
        (release.main w (dir ++ ('/' :: vTag X Y Z))).1 =
        [dir ++ ('/' :: ('v' :: X)),
         dir ++ ('/' :: ('v' :: (X ++ ('.' :: Y)))),
         dir ++ ('/' :: vTag X Y Z)]) := by
  have hM := semver.Major_vTag X Y Z hX hY hZ
  have hMM := semver.MajorMinor_vTag X Y Z hX hY hZ
  have hvalid := semver.IsValid_vTag X Y Z hX hY hZ
  have hver := noSlash_vTag X Y Z hX hY hZ
  have hsplit := Split_append dir (vTag X Y Z) hdir hver
  refine ⟨?_, ?_, ?_⟩
  · intro hc1
    have hrun : release.main w (dir ++ ('/' :: vTag X Y Z)) =
        (Event.readDirCall dir :: ((release.readDirLoop dir entries).1 ++
          (Event.execCmd gitName (gitArgs (dir ++ ('/' :: vTag X Y Z))) ::
            (delTrace (w.exec ghName (delArgs (dir ++ ('/' :: ('v' :: X)))))
                (dir ++ ('/' :: ('v' :: X))) ++
              [Event.execCmd ghName (createArgs (strings.TrimSpace raw)
                  (dir ++ ('/' :: ('v' :: X)))
                  ((release.readDirLoop dir entries).2))]))),
         Outcome.fatalCreateRelease (dir ++ ('/' :: ('v' :: X)))) := by
      simp [release.main, hsplit, hvalid, readDir_some w dir entries hfs,
        release.gitHash, release.execCmd, hgit, release.publishLoop,
        ghRelease_true_eq, ghRelease_false_eq, hM, hMM, hc1]
    have hfilter : List.filterMap createTagOf
        (release.main w (dir ++ ('/' :: vTag X Y Z))).1 =
        [dir ++ ('/' :: ('v' :: X))] := by
      rw [hrun]
      cases hr1 : w.exec ghName (delArgs (dir ++ ('/' :: ('v' :: X)))) <;>
        simp [delTrace, createTagOf_git, createTagOf_del, createTagOf_create,
          createTagOf_warnSkip, createTagOf_warnDel, createTagOf_readDirCall,
          filterMap_readDirLoop dir createTagOf (fun _ => rfl)]
    refine ⟨by rw [hrun], hfilter, ?_, ?_⟩
    · rw [hfilter]
      simp [majorMinor_ne_major dir X Y]
    · rw [hfilter]
      simp [vTag_ne_major dir X Y Z]
  · intro o1 hc1 hc2
    have hrun : release.main w (dir ++ ('/' :: vTag X Y Z)) =
        (Event.readDirCall dir :: ((release.readDirLoop dir entries).1 ++
          (Event.execCmd gitName (gitArgs (dir ++ ('/' :: vTag X Y Z))) ::
            (delTrace (w.exec ghName (delArgs (dir ++ ('/' :: ('v' :: X)))))
                (dir ++ ('/' :: ('v' :: X))) ++
              (Event.execCmd ghName (createArgs (strings.TrimSpace raw)
                  (dir ++ ('/' :: ('v' :: X)))
                  ((release.readDirLoop dir entries).2)) ::
                (delTrace
                    (w.exec ghName
                      (delArgs (dir ++ ('/' :: ('v' :: (X ++ ('.' :: Y)))))))
                    (dir ++ ('/' :: ('v' :: (X ++ ('.' :: Y))))) ++
                  [Event.execCmd ghName (createArgs (strings.TrimSpace raw)
                      (dir ++ ('/' :: ('v' :: (X ++ ('.' :: Y)))))
                      ((release.readDirLoop dir entries).2))]))))),
         Outcome.fatalCreateRelease
           (dir ++ ('/' :: ('v' :: (X ++ ('.' :: Y)))))) := by
      simp [release.main, hsplit, hvalid, readDir_some w dir entries hfs,
        release.gitHash, release.execCmd, hgit, release.publishLoop,
        ghRelease_true_eq, ghRelease_false_eq, hM, hMM, hc1, hc2]
    rw [hrun]
    refine ⟨rfl, ?_, ?_⟩
    · cases hr1 : w.exec ghName (delArgs (dir ++ ('/' :: ('v' :: X)))) <;>
        cases hr2 : w.exec ghName
          (delArgs (dir ++ ('/' :: ('v' :: (X ++ ('.' :: Y)))))) <;>
        simp [delTrace, createTagOf_git, createTagOf_del, createTagOf_create,
          createTagOf_warnSkip, createTagOf_warnDel, createTagOf_readDirCall,
          filterMap_readDirLoop dir createTagOf (fun _ => rfl)]
    · cases hr1 : w.exec ghName (delArgs (dir ++ ('/' :: ('v' :: X)))) <;>
        cases hr2 : w.exec ghName
          (delArgs (dir ++ ('/' :: ('v' :: (X ++ ('.' :: Y)))))) <;>
        simp [delTrace, createTagOf_git, createTagOf_del, createTagOf_create,
          createTagOf_warnSkip, createTagOf_warnDel, createTagOf_readDirCall,
          filterMap_readDirLoop dir createTagOf (fun _ => rfl),
          vTag_ne_major dir X Y Z, vTag_ne_majorMinor dir X Y Z]
  · intro o1 o2 hc1 hc2 hc3
    have hrun : release.main w (dir ++ ('/' :: vTag X Y Z)) =
        (Event.readDirCall dir :: ((release.readDirLoop dir entries).1 ++
          (Event.execCmd gitName (gitArgs (dir ++ ('/' :: vTag X Y Z))) ::
            (delTrace (w.exec ghName (delArgs (dir ++ ('/' :: ('v' :: X)))))
                (dir ++ ('/' :: ('v' :: X))) ++
              (Event.execCmd ghName (createArgs (strings.TrimSpace raw)
                  (dir ++ ('/' :: ('v' :: X)))
                  ((release.readDirLoop dir entries).2)) ::
                (delTrace
                    (w.exec ghName
                      (delArgs (dir ++ ('/' :: ('v' :: (X ++ ('.' :: Y)))))))
                    (dir ++ ('/' :: ('v' :: (X ++ ('.' :: Y))))) ++
                  [Event.execCmd ghName (createArgs (strings.TrimSpace raw)
                      (dir ++ ('/' :: ('v' :: (X ++ ('.' :: Y)))))
                      ((release.readDirLoop dir entries).2)),
                   Event.execCmd ghName (createArgs (strings.TrimSpace raw)
                      (dir ++ ('/' :: vTag X Y Z))
                      ((release.readDirLoop dir entries).2))]))))),
         Outcome.fatalCreateRelease (dir ++ ('/' :: vTag X Y Z))) := by
      simp [release.main, hsplit, hvalid, readDir_some w dir entries hfs,
        release.gitHash, release.execCmd, hgit, release.publishLoop,
        ghRelease_true_eq, ghRelease_false_eq, hM, hMM, hc1, hc2, hc3]
    rw [hrun]
    refine ⟨rfl, ?_⟩
    cases hr1 : w.exec ghName (delArgs (dir ++ ('/' :: ('v' :: X)))) <;>
      cases hr2 : w.exec ghName
        (delArgs (dir ++ ('/' :: ('v' :: (X ++ ('.' :: Y)))))) <;>
      simp [delTrace, createTagOf_git, createTagOf_del, createTagOf_create,
        createTagOf_warnSkip, createTagOf_warnDel, createTagOf_readDirCall,
        filterMap_readDirLoop dir createTagOf (fun _ => rfl)]

/-- A world in which every release creation fails while deletions, the
hash resolution and the directory listing succeed with empty output. -/
def wCreateFail1 : World :=
  ⟨fun _ => some [],
   fun _ a => if a[1]? = some sCreate then none else some []⟩

/-- A world in which the release creation for the major-minor alias tag
`w/v2.3` fails while every other call succeeds with empty output. -/
def wCreateFail : World :=
  ⟨fun _ => some [],
   fun _ a =>
     if a[4]? = some (['w'] ++ ('/' :: ('v' :: (['2'] ++ ('.' :: ['3'])))))
        ∧ a[1]? = some sCreate then none
     else some []⟩

/-- A world in which only the release creation for the exact-version tag
`w/v2.3.1` fails while every other call succeeds with empty output. -/
def wCreateFail3 : World :=
  ⟨fun _ => some [],
   fun _ a =>
     if a[4]? = some (['w'] ++ ('/' :: vTag ['2'] ['3'] ['1']))
        ∧ a[1]? = some sCreate then none
     else some []⟩

theorem claim3_witness :
    (noSlash ['w'] ∧ goodNum ['2'] ∧ goodNum ['3'] ∧ goodNum ['1']) ∧
    (wCreateFail1.readDir ['w'] = some [] ∧
     wCreateFail1.exec ghName (createArgs (strings.TrimSpace [])
       (['w'] ++ ('/' :: ('v' :: ['2'])))
       ((release.readDirLoop ['w'] []).2)) = none ∧
     ((release.main wCreateFail1
         (['w'] ++ ('/' :: vTag ['2'] ['3'] ['1']))).2 =
        Outcome.fatalCreateRelease (['w'] ++ ('/' :: ('v' :: ['2']))) ∧
      List.filterMap createTagOf
        (release.main wCreateFail1
          (['w'] ++ ('/' :: vTag ['2'] ['3'] ['1']))).1 =
        [['w'] ++ ('/' :: ('v' :: ['2']))] ∧
      ['w'] ++ ('/' :: ('v' :: (['2'] ++ ('.' :: ['3'])))) ∉
        List.filterMap createTagOf
          (release.main wCreateFail1
            (['w'] ++ ('/' :: vTag ['2'] ['3'] ['1']))).1 ∧
      ['w'] ++ ('/' :: vTag ['2'] ['3'] ['1']) ∉
        List.filterMap createTagOf
          (release.main wCreateFail1
            (['w'] ++ ('/' :: vTag ['2'] ['3'] ['1']))).1)) ∧
    (wCreateFail.readDir ['w'] = some [] ∧
     wCreateFail.exec ghName (createArgs (strings.TrimSpace [])
       (['w'] ++ ('/' :: ('v' :: ['2'])))
       ((release.readDirLoop ['w'] []).2)) = some [] ∧
     wCreateFail.exec ghName (createArgs (strings.TrimSpace [])
       (['w'] ++ ('/' :: ('v' :: (['2'] ++ ('.' :: ['3'])))))
       ((release.readDirLoop ['w'] []).2)) = none ∧
     ((release.main wCreateFail
         (['w'] ++ ('/' :: vTag ['2'] ['3'] ['1']))).2 =
        Outcome.fatalCreateRelease
          (['w'] ++ ('/' :: ('v' :: (['2'] ++ ('.' :: ['3']))))) ∧
      List.filterMap createTagOf
        (release.main wCreateFail
          (['w'] ++ ('/' :: vTag ['2'] ['3'] ['1']))).1 =
        [['w'] ++ ('/' :: ('v' :: ['2'])),
         ['w'] ++ ('/' :: ('v' :: (['2'] ++ ('.' :: ['3']))))] ∧
      ['w'] ++ ('/' :: vTag ['2'] ['3'] ['1']) ∉
        List.filterMap createTagOf
          (release.main wCreateFail
            (['w'] ++ ('/' :: vTag ['2'] ['3'] ['1']))).1)) ∧
    (wCreateFail3.readDir ['w'] = some [] ∧
     wCreateFail3.exec ghName (createArgs (strings.TrimSpace [])
       (['w'] ++ ('/' :: ('v' :: ['2'])))
       ((release.readDirLoop ['w'] []).2)) = some [] ∧
     wCreateFail3.exec ghName (createArgs (strings.TrimSpace [])
       (['w'] ++ ('/' :: ('v' :: (['2'] ++ ('.' :: ['3'])))))
       ((release.readDirLoop ['w'] []).2)) = some [] ∧
     wCreateFail3.exec ghName (createArgs (strings.TrimSpace [])
       (['w'] ++ ('/' :: vTag ['2'] ['3'] ['1']))
       ((release.readDirLoop ['w'] []).2)) = none ∧
     ((release.main wCreateFail3
         (['w'] ++ ('/' :: vTag ['2'] ['3'] ['1']))).2 =
        Outcome.fatalCreateRelease
          (['w'] ++ ('/' :: vTag ['2'] ['3'] ['1'])) ∧
      List.filterMap createTagOf
        (release.main wCreateFail3
          (['w'] ++ ('/' :: vTag ['2'] ['3'] ['1']))).1 =
        [['w'] ++ ('/' :: ('v' :: ['2'])),
         ['w'] ++ ('/' :: ('v' :: (['2'] ++ ('.' :: ['3'])))),
         ['w'] ++ ('/' :: vTag ['2'] ['3'] ['1'])])) :=
  ⟨⟨by decide, by decide, by decide, by decide⟩,
   ⟨rfl, rfl,
    (claim3 wCreateFail1 ['w'] ['2'] ['3'] ['1'] [] []
      (by decide) (by decide) (by decide) (by decide) rfl rfl).1 rfl⟩,
   ⟨rfl, rfl, rfl,
    (claim3 wCreateFail ['w'] ['2'] ['3'] ['1'] [] []
      (by decide) (by decide) (by decide) (by decide) rfl rfl).2.1 [] rfl rfl⟩,
   ⟨rfl, rfl, rfl, rfl,
    (claim3 wCreateFail3 ['w'] ['2'] ['3'] ['1'] [] []
      (by decide) (by decide) (by decide) (by decide) rfl rfl).2.2
      [] [] rfl rfl rfl⟩⟩

/-- The publish loop either completes (exit zero) or stops at a failed
creation: no other outcome can arise from it. -/
theorem publishLoop_outcome (w : World) (dir hash : List Char)
    (files : List (List Char)) :
    ∀ items : List (List Char × Bool),
      (release.publishLoop w dir hash files items).2 = Outcome.ok ∨
      ∃ t, (release.publishLoop w dir hash files items).2 =
        Outcome.fatalCreateRelease t
  | [] => Or.inl rfl
  | (ver, del) :: rest => by
    cases hgh : (release.ghRelease w (dir ++ ('/' :: ver)) hash del files).2
    · right
      exact ⟨dir ++ ('/' :: ver), by simp [release.publishLoop, hgh]⟩
    · have ih := publishLoop_outcome w dir hash files rest
      simpa [release.publishLoop, hgh] using ih

/-- Claim C2, counterexample: the reference name `/v1.2.3` splits into
two parts of which the first (the component) is empty, yet the Input
Resolver does not reject it with a format error — under an all-success
world the run reaches the directory listing and even exits zero. -/
theorem claim2_counterexample :
    (release.main w0 ['/', 'v', '1', '.', '2', '.', '3']).2 = Outcome.ok ∧
    Event.readDirCall [] ∈
      (release.main w0 ['/', 'v', '1', '.', '2', '.', '3']).1 ∧
    (release.main w0 ['/', 'v', '1', '.', '2', '.', '3']).2 ≠
      Outcome.fatalInvalidTag ['/', 'v', '1', '.', '2', '.', '3'] := by
  decide

/-- Claim C2, amended: the resolver fails with the format error exactly
when splitting on the slash yields other than two parts — the parts may
be empty.  An empty version part is still rejected before any later
stage runs, by version validation rather than the format check; an
empty component part is not rejected by the resolver at all. -/
theorem claim2 (w : World) (refName : List Char) (hne : refName ≠ []) :
    ((release.main w refName).2 = Outcome.fatalInvalidTag refName ↔
      (strings.Split '/' refName).length ≠ 2) ∧
    ∀ d : List Char, strings.Split '/' refName = [d, []] →
      (release.main w refName).1 = [] ∧
      (release.main w refName).2 = Outcome.fatalInvalidVersion [] := by
  constructor
  · constructor
    · intro hout
      by_contra h2
      obtain ⟨d, v, hdv⟩ := List.length_eq_two.mp h2
      by_cases hv : semver.IsValid v = true
      · cases hfs : w.readDir d with
        | none =>
          simp [release.main, hne, hdv, hv, release.readDir, hfs] at hout
        | some entries =>
          cases hgit : w.exec gitName (gitArgs refName) with
          | none =>
            simp [release.main, hne, hdv, hv, release.readDir, hfs,
              release.gitHash, release.execCmd, hgit] at hout
          | some raw =>
            rcases publishLoop_outcome w d (strings.TrimSpace raw)
                (release.readDirLoop d entries).2
                [(semver.Major v, true), (semver.MajorMinor v, true),
                 (v, false)] with hpl | ⟨t, hpl⟩ <;>
              simp [release.main, hne, hdv, hv, release.readDir, hfs,
                release.gitHash, release.execCmd, hgit, hpl] at hout
      · simp [release.main, hne, hdv, hv] at hout
    · intro h2
      simp [release.main, hne, h2]
  · intro d hd
    have hIsV : semver.IsValid ([] : List Char) = false := rfl
    simp [release.main, hne, hd, hIsV]

theorem claim2_witness :
    (['x'] : List Char) ≠ [] ∧
    (((release.main w0 ['x']).2 = Outcome.fatalInvalidTag ['x'] ↔
        (strings.Split '/' ['x']).length ≠ 2) ∧
    ∀ d : List Char, strings.Split '/' ['x'] = [d, []] →
      (release.main w0 ['x']).1 = [] ∧
      (release.main w0 ['x']).2 = Outcome.fatalInvalidVersion []) :=
  ⟨by decide, claim2 w0 ['x'] (by decide)⟩

/-- Claim C6: a reference name that does not split into exactly two
parts, or whose version part is not a valid semantic version, makes the
run fail before any filesystem or subprocess interaction: the event
trace is empty and the exit code is non-zero. -/
theorem claim6 (w : World) (refName : List Char)
    (h : (strings.Split '/' refName).length ≠ 2 ∨
      ∀ d v : List Char, strings.Split '/' refName = [d, v] →
        semver.IsValid v = false) :
    (release.main w refName).1 = [] ∧
    (release.main w refName).2 ≠ Outcome.ok := by
  by_cases hne : refName = []
  · subst hne
    constructor <;> simp [release.main]
  · rcases h with h | h
    · constructor <;> simp [release.main, hne, h]
    · by_cases h2 : (strings.Split '/' refName).length = 2
      · obtain ⟨d, v, hdv⟩ := List.length_eq_two.mp h2
        have hval := h d v hdv
        constructor <;> simp [release.main, hne, hdv, hval]
      · constructor <;> simp [release.main, hne, h2]

theorem claim6_witness :
    ((strings.Split '/' ['a']).length ≠ 2 ∨
      ∀ d v : List Char, strings.Split '/' ['a'] = [d, v] →
        semver.IsValid v = false) ∧
    ((release.main w0 ['a']).1 = [] ∧
      (release.main w0 ['a']).2 ≠ Outcome.ok) :=
  ⟨Or.inl (by decide), claim6 w0 ['a'] (Or.inl (by decide))⟩

/-- Claim C7: the Asset Collector fails exactly when the directory
cannot be listed; on a successful listing it emits one warning per
direct subdirectory (skipping it without failing) and returns exactly
the non-directory direct children, each joined with the component
directory, in listing order. -/
theorem claim7 (w : World) (dir : List Char) :
    (w.readDir dir = none →
      release.readDir w dir = ([Event.readDirCall dir], none)) ∧
    ∀ entries : List DirEntry, w.readDir dir = some entries →
      release.readDir w dir =
        (Event.readDirCall dir ::
          (entries.filter (fun e => e.isDir)).map
            (fun e => Event.warnSkipDir e.name),
         some ((entries.filter (fun e => !e.isDir)).map
           (fun e => filepath.Join dir e.name))) := by
  constructor
  · intro h
    unfold release.readDir
    rw [h]
  · intro entries h
    rw [readDir_some w dir entries h, readDirLoop_fst, readDirLoop_snd]

/-- The directory entries used by the collector witnesses: one regular
file `a` and one subdirectory `d`, in sorted order. -/
def entries1 : List DirEntry := [⟨['a'], false⟩, ⟨['d'], true⟩]

/-- A world whose directory listings return `entries1`. -/
def w1 : World := ⟨fun _ => some entries1, fun _ _ => some []⟩

theorem claim7_witness :
    w1.readDir ['w'] = some entries1 ∧
    release.readDir w1 ['w'] =
      (Event.readDirCall ['w'] ::
        (entries1.filter (fun e => e.isDir)).map
          (fun e => Event.warnSkipDir e.name),
       some ((entries1.filter (fun e => !e.isDir)).map
         (fun e => filepath.Join ['w'] e.name))) :=
  ⟨rfl, (claim7 w1 ['w']).2 entries1 rfl⟩

/-- Claim C9: because the directory-listing primitive returns entries
sorted by filename, the asset list is the join of a name-sorted list of
the non-directory entries — the attachment order is deterministic and
sorted by entry name, which is stronger than the unstable enumeration
order the specification allows. -/
theorem claim9 (w : World) (dir : List Char) (entries : List DirEntry)
    (hfs : w.readDir dir = some entries)
    (hsorted : List.Pairwise (fun a b => lexLe a.name b.name = true) entries) :
    (release.readDir w dir).2 =
      some ((entries.filter (fun e => !e.isDir)).map
        (fun e => filepath.Join dir e.name)) ∧
    List.Pairwise (fun a b => lexLe a.name b.name = true)
      (entries.filter (fun e => !e.isDir)) := by
  constructor
  · rw [readDir_some w dir entries hfs, readDirLoop_snd]
  · exact hsorted.sublist (List.filter_sublist entries)

theorem claim9_witness :
    w1.readDir ['w'] = some entries1 ∧
    List.Pairwise (fun a b => lexLe a.name b.name = true) entries1 ∧
    ((release.readDir w1 ['w']).2 =
      some ((entries1.filter (fun e => !e.isDir)).map
        (fun e => filepath.Join ['w'] e.name)) ∧
    List.Pairwise (fun a b => lexLe a.name b.name = true)
      (entries1.filter (fun e => !e.isDir))) :=
  ⟨rfl, by decide, claim9 w1 ['w'] entries1 rfl (by decide)⟩

/-! Sanity check: the scenario of the specification, environment value
`widgets/v2.3.1` (shortened here to directory `w`), an all-success
world: the run exits zero after one listing, one hash resolution, two
delete attempts and three creations. -/

example :
    release.main w0 ['w', '/', 'v', '2', '.', '3', '.', '1'] =
      ([Event.readDirCall ['w'],
        Event.execCmd gitName (gitArgs ['w', '/', 'v', '2', '.', '3', '.', '1']),
        Event.execCmd ghName (delArgs ['w', '/', 'v', '2']),
        Event.execCmd ghName (createArgs (strings.TrimSpace [])
          ['w', '/', 'v', '2'] []),
        Event.execCmd ghName (delArgs ['w', '/', 'v', '2', '.', '3']),
        Event.execCmd ghName (createArgs (strings.TrimSpace [])
          ['w', '/', 'v', '2', '.', '3'] []),
        Event.execCmd ghName (createArgs (strings.TrimSpace [])
          ['w', '/', 'v', '2', '.', '3', '.', '1'] [])],
       Outcome.ok) := by decide
